import Mathlib

/-!
Verification development for the image-to-palette conversion pipeline of the
goframe repository (scripts `epd-dither-resize-spectra6.py` and
`scripts/dither.py`).

The Python source is shallowly embedded as executable Lean definitions:

* an `Image` is a grid of RGB triplets of natural numbers (a total function
  together with explicit width and height, mirroring Pillow's pixel access);
* Python machine floats appearing in ratio computations are modelled as exact
  rational arithmetic, written in cross-multiplied integer form so that every
  definition evaluates inside the kernel (for the small concrete inputs used
  here the float and exact values agree);
* Python strings are modelled as `List Char`;
* fallible Python code (assertions, `list.index`, out-of-range list access,
  `raise ValueError`) is modelled with `Except String`.

Third-party Pillow primitives invoked by the source (`Image.resize`,
`Image.paste`, `ImageOps.pad`, `ImageOps.contain`, `Image.quantize`) are not
part of the repository; they are modelled from their documented behaviour and
from the specification's description, and each such definition carries a doc
comment saying so.
-/

namespace Goframe

/-- An RGB triplet, each channel a natural number (0..255 for valid pixels). -/
abbrev RGB : Type := ℕ × ℕ × ℕ

/-- A raster image: explicit dimensions and a total pixel function.
Coordinates are `(x, y)` with `x` a column in `0..width-1` and `y` a row in
`0..height-1`, origin at the top left, exactly as in Pillow. -/
structure Image where
  width : ℕ
  height : ℕ
  pix : ℕ → ℕ → RGB

/-- A QuantizedPixelGrid: same dimensions as an image, each cell a palette
index. -/
structure Grid where
  width : ℕ
  height : ℕ
  idx : ℕ → ℕ → ℕ

/-- All channels of all pixels are in `0..255` (the "RGB triplets" invariant of
the data model). -/
def Image.Valid (img : Image) : Prop :=
  ∀ x y, (img.pix x y).1 ≤ 255 ∧ (img.pix x y).2.1 ≤ 255 ∧ (img.pix x y).2.2 ≤ 255

/-- The white fill colour used by both fitting modes. -/
def whiteRGB : RGB := (255, 255, 255)

/-- Pillow `Image.rotate(180)` (no expansion; dimensions preserved). -/
def rotate180 (img : Image) : Image :=
  ⟨img.width, img.height, fun x y => img.pix (img.width - 1 - x) (img.height - 1 - y)⟩

/-- Pillow `Image.rotate(90, expand=True)`: a quarter turn counterclockwise,
output canvas `height × width`. -/
def rotate90 (img : Image) : Image :=
  ⟨img.height, img.width, fun x y => img.pix (img.width - 1 - y) x⟩

/-- Pillow `Image.rotate(270, expand=True)`: a quarter turn clockwise,
output canvas `height × width`. -/
def rotate270 (img : Image) : Image :=
  ⟨img.height, img.width, fun x y => img.pix y (img.height - 1 - x)⟩

/-- The orientation-correcting rotation `input_image.rotate(angle, expand=True)`
of the source; the CLI restricts `angle` to 90 or 270. -/
def rotateExpand (angle : ℕ) (img : Image) : Image :=
  if angle = 90 then rotate90 img else rotate270 img

/-- Modelled from Pillow `Image.resize((rw, rh))`: the result has exactly the
requested dimensions, and a same-size resize returns the image unchanged
(Pillow's fast path). Content of a true resampling is modelled as
nearest-neighbour sampling; no claim below depends on resampled pixel values,
only on dimensions, channel ranges and the same-size case. -/
def resize (img : Image) (rw rh : ℕ) : Image :=
  if rw = img.width ∧ rh = img.height then img
  else ⟨rw, rh, fun x y => img.pix (x * img.width / rw) (y * img.height / rh)⟩

/-- `Image.new("RGB", (w, h), (255, 255, 255))`: a white canvas. -/
def newWhite (w h : ℕ) : Image := ⟨w, h, fun _ _ => whiteRGB⟩

/-- Pillow `canvas.paste(content, (left, top))`: content replaces canvas pixels
on the overlap; offsets may be negative, in which case the overflow is clipped
by the canvas bounds (Pillow clips silently). Canvas dimensions are kept. -/
def paste (canvas content : Image) (left top : ℤ) : Image :=
  ⟨canvas.width, canvas.height, fun x y =>
    if left ≤ (x : ℤ) ∧ (x : ℤ) < left + content.width
        ∧ top ≤ (y : ℤ) ∧ (y : ℤ) < top + content.height
    then content.pix ((x : ℤ) - left).toNat ((y : ℤ) - top).toNat
    else canvas.pix x y⟩

/-- Pillow `Image.crop((l, t, r, b))`: the axis-aligned sub-rectangle, of
dimensions `(r - l) × (b - t)`. The source only ever crops with the full box
`(0, 0, width, height)`. -/
def crop (img : Image) (l t r b : ℕ) : Image :=
  ⟨r - l, b - t, fun x y => img.pix (x + l) (y + t)⟩

/-- The two fitting modes of the `--mode` flag. -/
inductive Mode where
  | scale
  | cut

/-- Python `round` on an exact nonnegative rational `num / den` (`den > 0`):
round half to even. Pillow's `ImageOps` computes these values in float
arithmetic; on the small integers appearing here the exact value agrees. -/
def rheDiv (num den : ℕ) : ℕ :=
  if 2 * (num % den) < den then num / den
  else if den < 2 * (num % den) then num / den + 1
  else if (num / den) % 2 = 0 then num / den else num / den + 1

/-- The `scale` branch of the source (lines 130-145): cover-fit.
`scale_ratio = max(target_width / width, target_height / height)` and the
resized dimensions `int(width * scale_ratio)`, `int(height * scale_ratio)` are
written in exact cross-multiplied form: when `tw / w ≥ th / h` (that is,
`th * w ≤ tw * h`) the ratio is `tw / w`, so the resized width is exactly `tw`
and the resized height is `⌊h * tw / w⌋`; symmetrically otherwise. The resized
image is pasted centred (integer floor division, possibly negative offsets)
onto a white target-size canvas. -/
def scaleFit (img : Image) (tw th : ℕ) : Image :=
  let w := img.width
  let h := img.height
  let rw := if th * w ≤ tw * h then tw else w * th / h
  let rh := if th * w ≤ tw * h then h * tw / w else th
  let resized := resize img rw rh
  let canvas := newWhite tw th
  paste canvas resized (((tw : ℤ) - rw).fdiv 2) (((th : ℤ) - rh).fdiv 2)

/-- Modelled from Pillow `ImageOps.contain(image, (tw, th))` as called by
`ImageOps.pad`: if the aspect ratios differ (`w / h ≠ tw / th`, in exact
cross-multiplied form `w * th ≠ h * tw`), the target size is shrunk on one axis
to `round(h / w * tw)` resp. `round(w / h * th)` (Python banker's rounding),
unless that rounds back onto the target. Returns the size the image is resized
to. -/
def containSize (w h tw th : ℕ) : ℕ × ℕ :=
  if w * th = h * tw then (tw, th)
  else if h * tw < w * th then
    if rheDiv (h * tw) w ≠ th then (tw, rheDiv (h * tw) w) else (tw, th)
  else
    if rheDiv (w * th) h ≠ tw then (rheDiv (w * th) h, th) else (tw, th)

/-- Modelled from Pillow `ImageOps.pad(image, (tw, th), color=white,
centering=(0.5, 0.5))`: the contained size together with the paste offset of
the contained image on the target canvas. With centering `(0.5, 0.5)` the
offset on the padded axis is `round(delta * 0.5)` (Python banker's rounding);
the contained size never exceeds the target, so the offsets are natural
numbers. -/
def padGeometry (w h tw th : ℕ) : (ℕ × ℕ) × (ℕ × ℕ) :=
  let cs := containSize w h tw th
  if cs.1 = tw ∧ cs.2 = th then (cs, (0, 0))
  else if cs.1 ≠ tw then (cs, (rheDiv (tw - cs.1) 2, 0))
  else (cs, (0, rheDiv (th - cs.2) 2))

/-- Modelled from Pillow `ImageOps.pad`: contain-resize, then (unless the
contained size already equals the target) paste onto a white target-size
canvas at the computed offset. -/
def imagePad (img : Image) (tw th : ℕ) : Image :=
  let g := padGeometry img.width img.height tw th
  let resized := resize img g.1.1 g.1.2
  if g.1.1 = tw ∧ g.1.2 = th then resized
  else paste (newWhite tw th) resized (g.2.1 : ℤ) (g.2.2 : ℤ)

/-- The `cut` branch of the source (lines 146-164). The source computes a
`padding` 4-tuple (`delta // 2` before, `delta - delta // 2` after) and a crop
`box`, but `padding` is never used and `box` is always the full image
`(0, 0, width, height)`; the produced image is
`ImageOps.pad(input_image.crop(box), size=(tw, th), color=white,
centering=(0.5, 0.5))`. -/
def cutFit (img : Image) (tw th : ℕ) : Image :=
  imagePad (crop img 0 0 img.width img.height) tw th

/-- GeometryNormalizer (source lines 118-164): optional 180-degree rotation,
orientation correction (rotate by `angle` with expansion when the
landscape/portrait orientation of the input disagrees with the target's), then
fit to the target size by mode. -/
def normalize (img : Image) (tw th : ℕ) (rot180 : Bool) (angle : ℕ) (mode : Mode) : Image :=
  let w := img.width
  let h := img.height
  let img1 := if rot180 then rotate180 img else img
  let img2 := if (decide (w > h) != decide (tw > th)) then rotateExpand angle img1 else img1
  match mode with
  | Mode.scale => scaleFit img2 tw th
  | Mode.cut => cutFit img2 tw th

/-- The fixed "real-world" SPECTRA6 palette of the source (line 82). -/
def SPECTRA6_REAL_WORD_RGB : List RGB :=
  [(25, 30, 33), (232, 232, 232), (239, 222, 68), (178, 19, 24), (33, 87, 186), (18, 95, 32)]

/-- The saturated device palette of the source (line 91), position-aligned with
`SPECTRA6_REAL_WORD_RGB`. -/
def SPECTRA6_DEVICE_RGB : List RGB :=
  [(0, 0, 0), (255, 255, 255), (255, 255, 0), (255, 0, 0), (0, 0, 255), (0, 255, 0)]

/-- The palette-index to raw-nibble map of the source (line 100). -/
def SPECTRA6_DEVICE_INDEX_TO_RAW : List ℕ := [0, 1, 2, 3, 5, 6]

/-- Squared Euclidean distance between two RGB triplets, computed in ℤ. -/
def dist2 (p q : RGB) : ℤ :=
  ((p.1 : ℤ) - q.1) ^ 2 + ((p.2.1 : ℤ) - q.2.1) ^ 2 + ((p.2.2 : ℤ) - q.2.2) ^ 2

/-- Modelled from the spec: the nearest-palette-entry search performed by
Pillow's `Image.quantize` (the source delegates to Pillow; the spec fixes the
algorithm as "the palette entry minimizing squared Euclidean distance in RGB
space, ties broken by lowest palette index"). `findIdx` returns the first
(lowest) index whose entry attains the minimum distance. -/
def nearestIndex (table : List RGB) (c : RGB) : ℕ :=
  table.findIdx (fun p => decide (∀ q ∈ table, dist2 p c ≤ dist2 q c))

/-- The palette-size handling of `build_palette_table` in `scripts/dither.py`
(lines 55-71), at the level of colour triplets: truncate to the backend maximum
of 256 entries, then pad with the FIRST colour repeated up to 256. -/
def paddedColors (colors : List RGB) : List RGB :=
  let cs := if colors.length > 256 then colors.take 256 else colors
  if cs.length < 256 then cs ++ List.replicate (256 - cs.length) (cs.headD (0, 0, 0)) else cs

/-- The flattening `[r, g, b, r, g, b, ...]` of a colour list (the `flat` list
built by `build_palette_table`). -/
def flatten3 : List RGB → List ℕ
  | [] => []
  | (r, g, b) :: rest => r :: g :: b :: flatten3 rest

/-- `build_palette_table(colors)` of `scripts/dither.py` (lines 55-71):
truncate/pad to exactly 256 colours (padding with the first colour), flatten,
and check the flat length is 768. `colors[0]` on an empty list raises
`IndexError`; a wrong flat length raises `RuntimeError`. -/
def build_palette_table (colors : List RGB) : Except String (List ℕ) :=
  match colors with
  | [] => Except.error "IndexError"
  | _ =>
    if (flatten3 (paddedColors colors)).length ≠ 768
    then Except.error "internal palette error"
    else Except.ok (flatten3 (paddedColors colors))

/-- The palette table built inline by the main script (lines 170-173):
the six SPECTRA6 colours followed by the first colour repeated 250 times,
flattened. -/
def spectra6PaletteFlat : List ℕ :=
  flatten3 SPECTRA6_REAL_WORD_RGB ++ flatten3 (List.replicate 250 (25, 30, 33))

/-- Modelled from the spec: `image.quantize(dither=NONE, palette=pal).convert("RGB")`
with the padded palette table — the dither-disabled path of the
PaletteQuantizer. Every pixel is mapped to the lowest-index nearest entry of
the padded table; the first component is the QuantizedPixelGrid of chosen
indices, the second the reconstructed RGB image (each pixel replaced by its
chosen palette entry). The dithering-enabled path is not modelled; no claim
below depends on it. -/
def quantizeNoDither (img : Image) (colors : List RGB) : Grid × Image :=
  (⟨img.width, img.height, fun x y => nearestIndex (paddedColors colors) (img.pix x y)⟩,
   ⟨img.width, img.height, fun x y =>
      (paddedColors colors).getD (nearestIndex (paddedColors colors) (img.pix x y)) (0, 0, 0)⟩)

/-- The visiting order of the packing loop (source lines 193-194):
`for y in reversed(range(height)): for x in reversed(range(width))`,
as the flattened list of visited `(x, y)` coordinates. -/
def coords (w h : ℕ) : List (ℕ × ℕ) :=
  (List.range h).reverse.flatMap (fun y => (List.range w).reverse.map (fun x => (x, y)))

/-- The body of the packing loop (source lines 195-203), folded over the
visiting order. `f x y` produces the raw nibble value of the pixel at
`(x, y)` (or the Python exception doing so raised); then the source asserts
`raw_value < 8`, stores the value as `raw_pending` when `x` is even, and
appends the byte `(raw_pending << 4) | raw_value` when `x` is odd.
`raw_pending` starts at 0 and the byte list starts empty. -/
def packGo (f : ℕ → ℕ → Except String ℕ) :
    List (ℕ × ℕ) → ℕ → List ℕ → Except String (List ℕ)
  | [], _, acc => Except.ok acc
  | (x, y) :: rest, pending, acc =>
    match f x y with
    | Except.error e => Except.error e
    | Except.ok v =>
      if v < 8 then
        if x % 2 = 0 then packGo f rest v acc
        else packGo f rest pending (acc ++ [(pending <<< 4) ||| v])
      else Except.error "AssertionError"

/-- The packing loop over a whole `w × h` raster. -/
def packCore (f : ℕ → ℕ → Except String ℕ) (w h : ℕ) : Except String (List ℕ) :=
  packGo f (coords w h) 0 []

/-- RawPacker `pack(grid, raw_index_map)`: the packing loop of the source run
on a QuantizedPixelGrid, looking each cell's palette index up in the raw index
map (Python list indexing raises `IndexError` out of range). In the source the
grid cell is recovered as `SPECTRA6_REAL_WORD_RGB.index(pixels[x, y])` from
the quantized image; here the grid holds those indices directly. -/
def pack (g : Grid) (m : List ℕ) : Except String (List ℕ) :=
  packCore (fun x y =>
    match m.get? (g.idx x y) with
    | some v => Except.ok v
    | none => Except.error "IndexError") g.width g.height

/-- Python `list.index(a)`: the first position of `a`, or `ValueError` when the
element does not occur. -/
def pyIndex (l : List RGB) (a : RGB) : Except String ℕ :=
  match l.findIdx? (fun x => x == a) with
  | some i => Except.ok i
  | none => Except.error "ValueError"

/-- The raw value looked up by the source's packing loop for one pixel colour
(lines 195-198): `index = SPECTRA6_REAL_WORD_RGB.index((r, g, b))` followed by
`raw_value = SPECTRA6_DEVICE_INDEX_TO_RAW[index]`. The loop also rewrites the
pixel to `SPECTRA6_DEVICE_RGB[index]`; the rewritten pixel is never read again
by the loop (each coordinate is visited once and read before being written),
so the byte stream is unaffected and the rewrite is not modelled. -/
def spectraRaw (c : RGB) : Except String ℕ :=
  match pyIndex SPECTRA6_REAL_WORD_RGB c with
  | Except.ok i =>
    match SPECTRA6_DEVICE_INDEX_TO_RAW.get? i with
    | some v => Except.ok v
    | none => Except.error "IndexError"
  | Except.error e => Except.error e

/-- The source's packing loop (lines 190-203) run on a quantized RGB image
under the fixed SPECTRA6 configuration. -/
def packSpectra (img : Image) : Except String (List ℕ) :=
  packCore (fun x y => spectraRaw (img.pix x y)) img.width img.height

/-- Python `str.split(sep)` for a one-character separator, on the character
list of the string: `"a;;b".split(";") = ["a", "", "b"]` and
`"".split(";") = [""]`. -/
def splitOnChar (sep : Char) : List Char → List (List Char)
  | [] => [[]]
  | c :: rest =>
    match splitOnChar sep rest with
    | [] => if c = sep then [[], [c]] else [[c]]
    | piece :: pieces => if c = sep then [] :: piece :: pieces else (c :: piece) :: pieces

/-- Python whitespace as stripped by `str.strip()` with no argument. -/
def isPySpace (c : Char) : Bool :=
  c = ' ' || c = '\t' || c = '\n' || c = '\r' || c = '\x0b' || c = '\x0c'

/-- Python `str.strip()`: drop whitespace from both ends. -/
def pyStrip (l : List Char) : List Char :=
  ((l.dropWhile isPySpace).reverse.dropWhile isPySpace).reverse

/-- The numeric value of a list of decimal digits. -/
def digitsVal : List Char → ℕ → ℕ
  | [], acc => acc
  | c :: rest, acc => digitsVal rest (10 * acc + (c.toNat - 48))

/-- Python `int(s)` on an already-stripped string: an optional sign followed by
at least one decimal digit, otherwise `ValueError` (`none`). Underscore digit
separators and non-ASCII decimal digits, which CPython also accepts, are not
modelled. -/
def pyInt? (s : List Char) : Option ℤ :=
  match s with
  | [] => none
  | c :: rest =>
    if c = '-' then
      if rest ≠ [] ∧ rest.all Char.isDigit then some (-(digitsVal rest 0 : ℤ)) else none
    else if c = '+' then
      if rest ≠ [] ∧ rest.all Char.isDigit then some (digitsVal rest 0 : ℤ) else none
    else if s.all Char.isDigit then some (digitsVal s 0 : ℤ) else none

/-- One entry of the palette string (the body of the `for` loop of
`parse_palette`, `scripts/dither.py` lines 38-49): split on commas, strip each
part, require exactly 3 parts, convert each with `int` (a conversion failure
raises `ValueError`), then range-check each component against 0..255. -/
def parseEntry (e : List Char) : Except String RGB :=
  match (splitOnChar ',' e).map pyStrip with
  | [p0, p1, p2] =>
    match pyInt? p0, pyInt? p1, pyInt? p2 with
    | some r, some g, some b =>
      if r < 0 ∨ 255 < r ∨ g < 0 ∨ 255 < g ∨ b < 0 ∨ 255 < b then
        Except.error "palette entry contains out-of-range value (0-255)"
      else Except.ok (r.toNat, g.toNat, b.toNat)
    | _, _, _ => Except.error "palette entry must be integers 0-255"
  | _ => Except.error "palette entry must have exactly 3 components"

/-- A Python `for` loop collecting results and re-raising the first failure. -/
def mapExcept (f : α → Except String β) : List α → Except String (List β)
  | [] => Except.ok []
  | a :: rest =>
    match f a with
    | Except.error e => Except.error e
    | Except.ok b =>
      match mapExcept f rest with
      | Except.error e => Except.error e
      | Except.ok bs => Except.ok (b :: bs)

/-- The stripped, nonempty entries between semicolons
(`[e.strip() for e in palette_str.split(";") if e.strip()]`). -/
def entriesOf (s : List Char) : List (List Char) :=
  ((splitOnChar ';' s).map pyStrip).filter (fun e => decide (e ≠ []))

/-- `parse_palette(palette_str)` of `scripts/dither.py` (lines 32-52): reject
the empty string, split on semicolons, strip and drop blank entries, parse
each entry, and reject an empty colour list. -/
def parse_palette (s : List Char) : Except String (List RGB) :=
  if s = [] then Except.error "empty --palette"
  else
    match mapExcept parseEntry (entriesOf s) with
    | Except.error e => Except.error e
    | Except.ok colors =>
      if colors.length = 0 then Except.error "palette must contain at least one color"
      else Except.ok colors

/-- Whether `pyInt?` accepts a string with a value in 0..255. -/
def intInRange (p : List Char) : Bool :=
  match pyInt? p with
  | some k => decide (0 ≤ k) && decide (k ≤ 255)
  | none => false

/-- Stated from the claim's words (for comparison with `parse_palette`): an
entry consisting of exactly 3 comma-separated integers each in 0..255. -/
def goodEntryB (e : List Char) : Bool :=
  match (splitOnChar ',' e).map pyStrip with
  | [p0, p1, p2] => intInRange p0 && intInRange p1 && intInRange p2
  | _ => false

/-- A 2×2 QuantizedPixelGrid `[[a, b], [c, d]]` (row 0 is `[a, b]`). -/
def grid2x2 (a b c d : ℕ) : Grid :=
  ⟨2, 2, fun x y => if y = 0 then (if x = 0 then a else b) else (if x = 0 then c else d)⟩

/-- A `w × h` grid with every cell holding palette index 0. -/
def gridZeros (w h : ℕ) : Grid := ⟨w, h, fun _ _ => 0⟩

/-- A 1×2 all-black image (width 1, height 2). -/
def black12 : Image := ⟨1, 2, fun _ _ => (0, 0, 0)⟩

/-- A 1×1 all-black image. -/
def black1x1 : Image := ⟨1, 1, fun _ _ => (0, 0, 0)⟩

/-- A 1×1 all-white image. -/
def white1x1 : Image := ⟨1, 1, fun _ _ => (255, 255, 255)⟩

/-- A 1×1 pure-green image. -/
def green1x1 : Image := ⟨1, 1, fun _ _ => (0, 255, 0)⟩

/-- The two-colour black/white palette of the spec's scenario. -/
def pal2 : List RGB := [(0, 0, 0), (255, 255, 255)]

/-- A palette of 257 distinct colours: 256 shades of red followed by pure
green. One more entry than the backend maximum of 256. -/
def colors257 : List RGB :=
  (List.range 257).map (fun i => if i = 256 then (0, 255, 0) else (i, 0, 0))

/-- A 2×2 image chequered with the first two SPECTRA6 real-world colours. -/
def imgSpectra2x2 : Image :=
  ⟨2, 2, fun x y => if (x + y) % 2 = 0 then (25, 30, 33) else (232, 232, 232)⟩

/-- A 2×1 all-black image. -/
def black2x1 : Image := ⟨2, 1, fun _ _ => (0, 0, 0)⟩

/- ### Lemmas on the rounding helper -/

theorem rheDiv_le_div_succ (num den : ℕ) : rheDiv num den ≤ num / den + 1 := by
  unfold rheDiv
  split
  · omega
  · split
    · omega
    · split <;> omega

theorem rheDiv_half_bounds (d : ℕ) :
    d ≤ 2 * rheDiv d 2 + 1 ∧ 2 * rheDiv d 2 ≤ d + 1 ∧ rheDiv d 2 ≤ d := by
  unfold rheDiv
  split
  · omega
  · split
    · omega
    · split <;> omega

/- ### Lemmas on `containSize` and `padGeometry` -/

theorem containSize_le (w h tw th : ℕ) :
    (containSize w h tw th).1 ≤ tw ∧ (containSize w h tw th).2 ≤ th := by
  unfold containSize
  split
  · exact ⟨le_rfl, le_rfl⟩
  · split
    · rename_i hlt
      split
      · refine ⟨le_rfl, ?_⟩
        have hdiv : h * tw / w < th := Nat.div_lt_of_lt_mul hlt
        have := rheDiv_le_div_succ (h * tw) w
        omega
      · exact ⟨le_rfl, le_rfl⟩
    · rename_i hne hnlt
      split
      · refine ⟨?_, le_rfl⟩
        have hlt : w * th < h * tw := by omega
        have hdiv : w * th / h < tw := Nat.div_lt_of_lt_mul hlt
        have := rheDiv_le_div_succ (w * th) h
        omega
      · exact ⟨le_rfl, le_rfl⟩

theorem containSize_axis (w h tw th : ℕ) :
    (containSize w h tw th).1 = tw ∨ (containSize w h tw th).2 = th := by
  unfold containSize
  split
  · exact Or.inl rfl
  · split
    · split
      · exact Or.inl rfl
      · exact Or.inl rfl
    · split
      · exact Or.inr rfl
      · exact Or.inl rfl

theorem containSize_of_eq_aspect (w h tw th : ℕ) (heq : w * th = h * tw) :
    containSize w h tw th = (tw, th) := by
  unfold containSize
  rw [if_pos heq]

/- ### Dimension and validity lemmas for the image operations -/

theorem resize_width (img : Image) (rw rh : ℕ) : (resize img rw rh).width = rw := by
  unfold resize
  split
  · rename_i hc
    exact hc.1.symm
  · rfl

theorem resize_height (img : Image) (rw rh : ℕ) : (resize img rw rh).height = rh := by
  unfold resize
  split
  · rename_i hc
    exact hc.2.symm
  · rfl

theorem resize_valid (img : Image) (rw rh : ℕ) (h : img.Valid) : (resize img rw rh).Valid := by
  unfold resize
  split
  · exact h
  · exact fun x y => h _ _

theorem newWhite_valid (w h : ℕ) : (newWhite w h).Valid := by
  intro x y
  exact ⟨le_rfl, le_rfl, le_rfl⟩

theorem paste_valid (canvas content : Image) (l t : ℤ)
    (h1 : canvas.Valid) (h2 : content.Valid) : (paste canvas content l t).Valid := by
  intro x y
  simp only [paste]
  split
  · exact h2 _ _
  · exact h1 x y

theorem rotate180_valid (img : Image) (h : img.Valid) : (rotate180 img).Valid :=
  fun _ _ => h _ _

theorem rotateExpand_valid (angle : ℕ) (img : Image) (h : img.Valid) :
    (rotateExpand angle img).Valid := by
  unfold rotateExpand rotate90 rotate270
  split
  · exact fun _ _ => h _ _
  · exact fun _ _ => h _ _

theorem crop_valid (img : Image) (l t r b : ℕ) (h : img.Valid) : (crop img l t r b).Valid :=
  fun _ _ => h _ _

theorem scaleFit_valid (img : Image) (tw th : ℕ) (h : img.Valid) : (scaleFit img tw th).Valid :=
  paste_valid _ _ _ _ (newWhite_valid tw th) (resize_valid _ _ _ h)

theorem imagePad_width (img : Image) (tw th : ℕ) : (imagePad img tw th).width = tw := by
  unfold imagePad
  dsimp only
  split
  · rename_i hc
    exact (resize_width _ _ _).trans hc.1
  · rfl

theorem imagePad_height (img : Image) (tw th : ℕ) : (imagePad img tw th).height = th := by
  unfold imagePad
  dsimp only
  split
  · rename_i hc
    exact (resize_height _ _ _).trans hc.2
  · rfl

theorem imagePad_valid (img : Image) (tw th : ℕ) (h : img.Valid) : (imagePad img tw th).Valid := by
  unfold imagePad
  dsimp only
  split
  · exact resize_valid _ _ _ h
  · exact paste_valid _ _ _ _ (newWhite_valid tw th) (resize_valid _ _ _ h)

theorem cutFit_valid (img : Image) (tw th : ℕ) (h : img.Valid) : (cutFit img tw th).Valid :=
  imagePad_valid _ _ _ (crop_valid _ _ _ _ _ h)

theorem crop_full (img : Image) : crop img 0 0 img.width img.height = img := rfl

theorem padGeometry_spec (w h tw th : ℕ) :
    (padGeometry w h tw th).1 = containSize w h tw th ∧
    (((padGeometry w h tw th).2.1 = 0 ∧ (padGeometry w h tw th).2.2 = 0 ∧
        (containSize w h tw th).1 = tw ∧ (containSize w h tw th).2 = th) ∨
      ((padGeometry w h tw th).2.1 = rheDiv (tw - (containSize w h tw th).1) 2 ∧
        (padGeometry w h tw th).2.2 = 0 ∧ (containSize w h tw th).1 ≠ tw) ∨
      ((padGeometry w h tw th).2.1 = 0 ∧
        (padGeometry w h tw th).2.2 = rheDiv (th - (containSize w h tw th).2) 2 ∧
        (containSize w h tw th).1 = tw ∧ (containSize w h tw th).2 ≠ th)) := by
  unfold padGeometry
  dsimp only
  split
  · rename_i hb
    exact ⟨rfl, Or.inl ⟨rfl, rfl, hb.1, hb.2⟩⟩
  · rename_i hb
    split
    · rename_i hne
      exact ⟨rfl, Or.inr (Or.inl ⟨rfl, rfl, hne⟩)⟩
    · rename_i hne
      have h1 : (containSize w h tw th).1 = tw := by
        by_contra hc
        exact hne hc
      have h2 : (containSize w h tw th).2 ≠ th := by
        intro hc
        exact hb ⟨h1, hc⟩
      exact ⟨rfl, Or.inr (Or.inr ⟨rfl, rfl, h1, h2⟩)⟩

theorem padGeometry_of_eq_aspect (w h tw th : ℕ) (heq : w * th = h * tw) :
    padGeometry w h tw th = ((tw, th), (0, 0)) := by
  unfold padGeometry
  rw [containSize_of_eq_aspect w h tw th heq]
  dsimp only
  rw [if_pos ⟨rfl, rfl⟩]

/- ### Claim theorems: geometry -/

/-- Claim C5: for every input image with width, height ≥ 1, positive target
dimensions, any rotate flag, rotate angle in {90, 270} and mode in
{scale, cut}, `normalize` produces an image of exactly `target_width ×
target_height` consisting of RGB triplets only (all channels in 0..255 when
the input's are). -/
theorem C5_normalize_size (img : Image) (tw th : ℕ) (rot180 : Bool) (angle : ℕ) (mode : Mode)
    (hw : 1 ≤ img.width) (hh : 1 ≤ img.height) (htw : 0 < tw) (hth : 0 < th)
    (hangle : angle = 90 ∨ angle = 270) :
    (normalize img tw th rot180 angle mode).width = tw ∧
    (normalize img tw th rot180 angle mode).height = th ∧
    (img.Valid → (normalize img tw th rot180 angle mode).Valid) := by
  have hval : img.Valid →
      (if (decide (img.width > img.height) != decide (tw > th))
        then rotateExpand angle (if rot180 then rotate180 img else img)
        else (if rot180 then rotate180 img else img)).Valid := by
    intro hv
    have h1 : (if rot180 then rotate180 img else img).Valid := by
      split
      · exact rotate180_valid _ hv
      · exact hv
    split
    · exact rotateExpand_valid _ _ h1
    · exact h1
  cases mode with
  | scale =>
    exact ⟨rfl, rfl, fun hv => scaleFit_valid _ _ _ (hval hv)⟩
  | cut =>
    exact ⟨imagePad_width _ _ _, imagePad_height _ _ _,
      fun hv => cutFit_valid _ _ _ (hval hv)⟩

/-- Witness for C5 at a concrete input: a 2×1 black image normalized to 4×2. -/
theorem C5_witness :
    (normalize black2x1 4 2 false 90 Mode.scale).width = 4 ∧
    (normalize black2x1 4 2 false 90 Mode.scale).height = 2 ∧
    (black2x1.Valid → (normalize black2x1 4 2 false 90 Mode.scale).Valid) :=
  C5_normalize_size black2x1 4 2 false 90 Mode.scale (by decide) (by decide) (by decide)
    (by decide) (Or.inl rfl)

/-- Counterexample to claim C6 as stated: for a 1×1 source padded to 4×1 in
cut mode, the total horizontal padding is `delta = 3`, but the before-padding
is 2 (Python `round(1.5)` = 2, banker's rounding), not `delta // 2 = 1`; the
image content lands at `x = 2`, with white at `x = 1`. -/
theorem C6_counterexample :
    (padGeometry 1 1 4 1).2.1 = 2 ∧
    (4 - (padGeometry 1 1 4 1).1.1) / 2 = 1 ∧
    (padGeometry 1 1 4 1).2.1 ≠ (4 - (padGeometry 1 1 4 1).1.1) / 2 ∧
    (cutFit black1x1 4 1).pix 2 0 = (0, 0, 0) ∧
    (cutFit black1x1 4 1).pix 1 0 = whiteRGB := by decide

/-- Claim C6, amended: in cut mode the (unused) floor-division split computed
by the source is dead code; the live path is `ImageOps.pad`, which
contain-resizes the image first and then centres it with before-padding
`round(delta / 2)` (banker's rounding) where `delta` is the leftover on the
padded axis after the contain-resize. The split is near-even (the before- and
after-padding differ by at most one), only one axis is padded, the contained
image fits inside the target, and when the source aspect ratio exactly equals
the target aspect ratio there is no padding at all: the output is exactly the
resized image, with no white border. -/
theorem C6_amended (w h tw th : ℕ) (hw : 1 ≤ w) (hh : 1 ≤ h) (htw : 1 ≤ tw) (hth : 1 ≤ th) :
    ((padGeometry w h tw th).1.1 ≤ tw ∧ (padGeometry w h tw th).1.2 ≤ th) ∧
    ((padGeometry w h tw th).2.1 = 0 ∨ (padGeometry w h tw th).2.2 = 0) ∧
    (tw - (padGeometry w h tw th).1.1 ≤ 2 * (padGeometry w h tw th).2.1 + 1 ∧
      2 * (padGeometry w h tw th).2.1 ≤ tw - (padGeometry w h tw th).1.1 + 1 ∧
      (padGeometry w h tw th).2.1 + (padGeometry w h tw th).1.1 ≤ tw) ∧
    (th - (padGeometry w h tw th).1.2 ≤ 2 * (padGeometry w h tw th).2.2 + 1 ∧
      2 * (padGeometry w h tw th).2.2 ≤ th - (padGeometry w h tw th).1.2 + 1 ∧
      (padGeometry w h tw th).2.2 + (padGeometry w h tw th).1.2 ≤ th) ∧
    (w * th = h * tw →
      padGeometry w h tw th = ((tw, th), (0, 0)) ∧
      ∀ img : Image, img.width = w → img.height = h →
        cutFit img tw th = resize img tw th) := by
  obtain ⟨hfst, hcase⟩ := padGeometry_spec w h tw th
  have hc1 : (padGeometry w h tw th).1.1 = (containSize w h tw th).1 := by rw [hfst]
  have hc2 : (padGeometry w h tw th).1.2 = (containSize w h tw th).2 := by rw [hfst]
  obtain ⟨hle1, hle2⟩ := containSize_le w h tw th
  have haxis := containSize_axis w h tw th
  have heqcase : w * th = h * tw →
      padGeometry w h tw th = ((tw, th), (0, 0)) ∧
      ∀ img : Image, img.width = w → img.height = h →
        cutFit img tw th = resize img tw th := by
    intro heq
    have hpg := padGeometry_of_eq_aspect w h tw th heq
    refine ⟨hpg, fun img hiw hih => ?_⟩
    show imagePad (crop img 0 0 img.width img.height) tw th = resize img tw th
    rw [crop_full]
    unfold imagePad
    dsimp only
    rw [hiw, hih, hpg]
    dsimp only
    rw [if_pos ⟨rfl, rfl⟩]
  rcases hcase with ⟨ho1, ho2, ha1, ha2⟩ | ⟨ho1, ho2, hne⟩ | ⟨ho1, ho2, ha1, hne⟩
  · exact ⟨⟨by omega, by omega⟩, Or.inl ho1, ⟨by omega, by omega, by omega⟩,
      ⟨by omega, by omega, by omega⟩, heqcase⟩
  · have hb := rheDiv_half_bounds (tw - (containSize w h tw th).1)
    have hth2 : (containSize w h tw th).2 = th := by
      rcases haxis with hx | hx
      · exact absurd hx hne
      · exact hx
    exact ⟨⟨by omega, by omega⟩, Or.inr ho2, ⟨by omega, by omega, by omega⟩,
      ⟨by omega, by omega, by omega⟩, heqcase⟩
  · have hb := rheDiv_half_bounds (th - (containSize w h tw th).2)
    exact ⟨⟨by omega, by omega⟩, Or.inl ho1, ⟨by omega, by omega, by omega⟩,
      ⟨by omega, by omega, by omega⟩, heqcase⟩

/-- Witness for C6 (amended) at a concrete input: a 2×1 source and a 4×2
target have exactly equal aspect ratios, so cut mode applies zero padding. -/
theorem C6_witness : padGeometry 2 1 4 2 = ((4, 2), (0, 0)) :=
  ((C6_amended 2 1 4 2 (by decide) (by decide) (by decide) (by decide)).2.2.2.2
    (by decide)).1

/- ### Claim theorems: the packing loop -/

/-- Claim C1 (code bug): on the 2×2 grid `[[0, 1], [2, 3]]` with the identity
raw index map `[0, 1, 2, 3]`, the packing loop of the source emits
`[0x03, 0x21]` — the first byte carries the stale initial `raw_pending = 0` in
its high nibble, pairs straddle (`map[c]` is packed with `map[b]`), and
`map[a]` is never emitted — instead of the documented
`[(map[d] << 4) | map[c], (map[b] << 4) | map[a]] = [0x32, 0x10]`. -/
theorem C1_pack_eval :
    pack (grid2x2 0 1 2 3) [0, 1, 2, 3] = Except.ok [3, 33] ∧
    [3, 33] ≠ [((3 : ℕ) <<< 4) ||| 2, ((1 : ℕ) <<< 4) ||| 0] :=
  ⟨rfl, by decide⟩

set_option maxRecDepth 40000 in
/-- Claim C2 (code bug): for the spec's scenario — palette
`[(0,0,0), (255,255,255)]`, dither disabled, a 1×2 all-black image fitted into
a 1×2 target in scale mode, raw index map `[0, 1]` — the QuantizedPixelGrid is
`[[0], [0]]` as claimed, but the packing loop emits NO bytes (the single
column has `x = 0`, which is even, so every value is parked in `raw_pending`
and never flushed), not the claimed single byte `0x00`. -/
theorem C2_scenario_eval :
    (quantizeNoDither (normalize black12 1 2 false 270 Mode.scale) pal2).1.width = 1 ∧
    (quantizeNoDither (normalize black12 1 2 false 270 Mode.scale) pal2).1.height = 2 ∧
    (quantizeNoDither (normalize black12 1 2 false 270 Mode.scale) pal2).1.idx 0 0 = 0 ∧
    (quantizeNoDither (normalize black12 1 2 false 270 Mode.scale) pal2).1.idx 0 1 = 0 ∧
    pack (quantizeNoDither (normalize black12 1 2 false 270 Mode.scale) pal2).1 [0, 1]
      = Except.ok [] := by
  refine ⟨rfl, rfl, ?_, ?_, rfl⟩
  · decide
  · decide

/-- Claim C3 (code bug): the 1×2 grid (width 1, height 2, pixel count 2,
even) packs to 0 bytes, not `ceil(1 * 2 / 2) = 1` byte: the packing loop only
appends on odd `x`, so for odd widths pixels are dropped. -/
theorem C3_length_eval :
    pack (gridZeros 1 2) [0, 1] = Except.ok [] ∧ (0 : ℕ) ≠ (1 * 2 + 1) / 2 :=
  ⟨rfl, by decide⟩

/-- Counterexample to claim C8 as stated: a raw index map containing the value
16 at an index no grid cell uses does not make `pack` fail — the assertion only
checks values actually looked up. -/
theorem C8_counterexample :
    (16 : ℕ) ∈ [0, 16] ∧ pack (gridZeros 2 2) [0, 16] = Except.ok [0, 0] :=
  ⟨by decide, rfl⟩

/- ### Lemmas on distances and nearest-index search -/

theorem dist2_self (c : RGB) : dist2 c c = 0 := by
  simp [dist2]

theorem dist2_nonneg (p q : RGB) : 0 ≤ dist2 p q := by
  unfold dist2
  positivity

theorem dist2_eq_zero (p q : RGB) (h : dist2 p q = 0) : p = q := by
  obtain ⟨p1, p2, p3⟩ := p
  obtain ⟨q1, q2, q3⟩ := q
  simp only [dist2] at h
  have s1 := sq_nonneg ((p1 : ℤ) - q1)
  have s2 := sq_nonneg ((p2 : ℤ) - q2)
  have s3 := sq_nonneg ((p3 : ℤ) - q3)
  have e1 : ((p1 : ℤ) - q1) ^ 2 = 0 := by linarith
  have e2 : ((p2 : ℤ) - q2) ^ 2 = 0 := by linarith
  have e3 : ((p3 : ℤ) - q3) ^ 2 = 0 := by linarith
  have f1 : (p1 : ℤ) = q1 := by nlinarith [sq_abs ((p1 : ℤ) - q1)]
  have f2 : (p2 : ℤ) = q2 := by nlinarith [sq_abs ((p2 : ℤ) - q2)]
  have f3 : (p3 : ℤ) = q3 := by nlinarith [sq_abs ((p3 : ℤ) - q3)]
  have g1 : p1 = q1 := by exact_mod_cast f1
  have g2 : p2 = q2 := by exact_mod_cast f2
  have g3 : p3 = q3 := by exact_mod_cast f3
  simp [g1, g2, g3]

theorem exists_min_dist (c : RGB) (l : List RGB) (hne : l ≠ []) :
    ∃ p ∈ l, ∀ q ∈ l, dist2 p c ≤ dist2 q c := by
  induction l with
  | nil => exact absurd rfl hne
  | cons a rest ih =>
    cases rest with
    | nil =>
      refine ⟨a, List.mem_cons_self a [], fun q hq => ?_⟩
      rcases List.mem_cons.mp hq with h | h
      · rw [h]
      · exact absurd h (List.not_mem_nil q)
    | cons b rest2 =>
      obtain ⟨p, hmem, hmin⟩ := ih (by simp)
      by_cases hc : dist2 a c ≤ dist2 p c
      · refine ⟨a, List.mem_cons_self a _, fun q hq => ?_⟩
        rcases List.mem_cons.mp hq with h | h
        · rw [h]
        · exact le_trans hc (hmin q h)
      · refine ⟨p, List.mem_cons_of_mem a hmem, fun q hq => ?_⟩
        rcases List.mem_cons.mp hq with h | h
        · rw [h]
          exact le_of_lt (lt_of_not_le hc)
        · exact hmin q h

theorem nearestIndex_lt_length (table : List RGB) (c : RGB) (hne : table ≠ []) :
    nearestIndex table c < table.length := by
  obtain ⟨p, hmem, hmin⟩ := exists_min_dist c table hne
  exact List.findIdx_lt_length_of_exists ⟨p, hmem, decide_eq_true hmin⟩

theorem nearestIndex_min (table : List RGB) (c : RGB)
    (h : nearestIndex table c < table.length) :
    ∀ q ∈ table, dist2 table[nearestIndex table c] c ≤ dist2 q c := by
  have hp := @List.findIdx_getElem RGB
    (fun p => decide (∀ q ∈ table, dist2 p c ≤ dist2 q c)) table h
  exact of_decide_eq_true hp

theorem nearest_of_mem (table : List RGB) (c : RGB) (hc : c ∈ table) :
    table[nearestIndex table c]? = some c := by
  have hne : table ≠ [] := List.ne_nil_of_mem hc
  have hlt : nearestIndex table c < table.length := nearestIndex_lt_length table c hne
  have hmin := nearestIndex_min table c hlt
  have hle := hmin c hc
  rw [dist2_self] at hle
  have hge := dist2_nonneg table[nearestIndex table c] c
  have heq : table[nearestIndex table c] = c :=
    dist2_eq_zero _ _ (le_antisymm hle hge)
  rw [List.getElem?_eq_getElem hlt, heq]

/- ### Lemmas on the padded palette table -/

theorem paddedColors_eq_of_le (colors : List RGB) (h : colors.length ≤ 256) :
    paddedColors colors =
      colors ++ List.replicate (256 - colors.length) (colors.headD (0, 0, 0)) := by
  unfold paddedColors
  dsimp only
  have hcs : (if colors.length > 256 then colors.take 256 else colors) = colors :=
    if_neg (by omega)
  rw [hcs]
  by_cases h2 : colors.length < 256
  · rw [if_pos h2]
  · have h3 : colors.length = 256 := by omega
    rw [if_neg h2, h3]
    simp

theorem paddedColors_eq_of_gt (colors : List RGB) (h : 256 < colors.length) :
    paddedColors colors = colors.take 256 := by
  unfold paddedColors
  dsimp only
  have hcs : (if colors.length > 256 then colors.take 256 else colors) = colors.take 256 :=
    if_pos (by omega)
  rw [hcs]
  rw [if_neg (by rw [List.length_take]; omega)]

theorem paddedColors_length (colors : List RGB) : (paddedColors colors).length = 256 := by
  by_cases h : 256 < colors.length
  · rw [paddedColors_eq_of_gt colors h, List.length_take]
    omega
  · rw [paddedColors_eq_of_le colors (by omega)]
    rw [List.length_append, List.length_replicate]
    omega

theorem paddedColors_getElem_lt (colors : List RGB) (i : ℕ) (h : i < min colors.length 256) :
    (paddedColors colors)[i]? = colors[i]? := by
  by_cases hgt : 256 < colors.length
  · rw [paddedColors_eq_of_gt colors hgt, List.getElem?_take, if_pos (by omega)]
  · rw [paddedColors_eq_of_le colors (by omega), List.getElem?_append, if_pos (by omega)]

theorem paddedColors_getElem_pad (colors : List RGB) (i : ℕ) (hne : colors ≠ [])
    (h1 : min colors.length 256 ≤ i) (h2 : i < 256) :
    (paddedColors colors)[i]? = colors[0]? := by
  by_cases hgt : 256 < colors.length
  · omega
  · rw [paddedColors_eq_of_le colors (by omega), List.getElem?_append,
      if_neg (by omega), List.getElem?_replicate, if_pos (by omega)]
    cases colors with
    | nil => exact absurd rfl hne
    | cons c0 rest => simp

theorem mem_paddedColors (colors : List RGB) (a : RGB) (hle : colors.length ≤ 256)
    (h : a ∈ colors) : a ∈ paddedColors colors := by
  rw [paddedColors_eq_of_le colors hle]
  exact List.mem_append_left _ h

theorem nearest_padded_lt (colors : List RGB) (c : RGB) (hne : colors ≠ []) :
    nearestIndex (paddedColors colors) c < min colors.length 256 := by
  have hlen : (paddedColors colors).length = 256 := paddedColors_length colors
  have hTne : paddedColors colors ≠ [] := by
    intro h
    rw [h] at hlen
    simp at hlen
  have hlt : nearestIndex (paddedColors colors) c < (paddedColors colors).length :=
    nearestIndex_lt_length _ c hTne
  by_contra hcase
  push_neg at hcase
  have hr256 : nearestIndex (paddedColors colors) c < 256 := by omega
  have h0min : 0 < min colors.length 256 := by
    have := List.length_pos.mpr hne
    omega
  have h0lt : (0 : ℕ) < (paddedColors colors).length := by omega
  have h1 : (paddedColors colors)[nearestIndex (paddedColors colors) c]? = colors[0]? :=
    paddedColors_getElem_pad colors _ hne hcase hr256
  have h2 : (paddedColors colors)[(0 : ℕ)]? = colors[0]? :=
    paddedColors_getElem_lt colors 0 h0min
  rw [List.getElem?_eq_getElem hlt] at h1
  rw [List.getElem?_eq_getElem h0lt] at h2
  have helem : (paddedColors colors)[nearestIndex (paddedColors colors) c] =
      (paddedColors colors)[0] :=
    Option.some.inj (h1.trans h2.symm)
  have hp : decide (∀ q ∈ paddedColors colors,
      dist2 (paddedColors colors)[nearestIndex (paddedColors colors) c] c ≤ dist2 q c)
      = true :=
    @List.findIdx_getElem RGB
      (fun p => decide (∀ q ∈ paddedColors colors, dist2 p c ≤ dist2 q c))
      (paddedColors colors) hlt
  have hzero : 0 < nearestIndex (paddedColors colors) c := by omega
  have hnot : decide (∀ q ∈ paddedColors colors,
      dist2 (paddedColors colors)[0] c ≤ dist2 q c) = false :=
    @List.not_of_lt_findIdx RGB
      (fun p => decide (∀ q ∈ paddedColors colors, dist2 p c ≤ dist2 q c))
      (paddedColors colors) 0 hzero
  rw [helem] at hp
  rw [hp] at hnot
  exact absurd hnot (by simp)

/- ### Claim theorems: palette handling and no-dither idempotence -/

theorem flatten3_length (l : List RGB) : (flatten3 l).length = 3 * l.length := by
  induction l with
  | nil => rfl
  | cons a rest ih =>
    obtain ⟨r, g, b⟩ := a
    simp only [flatten3, List.length_cons, ih]
    omega

set_option maxRecDepth 80000 in
/-- Claim C4: a palette with fewer entries than the backend maximum of 256 is
padded to 256 by repeating the FIRST entry (the truncation case keeps the
first 256 entries); consequently the nearest-colour search never selects a
padding entry: its result is always an index of a real (pre-padding) entry,
since padding duplicates entry 0, which wins ties by lowest index. The flat
768-value table is built without error, and the inline table of the main
script equals the padded table of its fixed 6-colour palette. -/
theorem C4_palette :
    (∀ colors : List RGB, colors ≠ [] →
      ((paddedColors colors).length = 256 ∧
        (∀ i : ℕ, i < min colors.length 256 → (paddedColors colors)[i]? = colors[i]?) ∧
        (∀ i : ℕ, min colors.length 256 ≤ i → i < 256 →
          (paddedColors colors)[i]? = colors[0]?) ∧
        (∀ c : RGB, nearestIndex (paddedColors colors) c < min colors.length 256) ∧
        build_palette_table colors = Except.ok (flatten3 (paddedColors colors)))) ∧
    spectra6PaletteFlat = flatten3 (paddedColors SPECTRA6_REAL_WORD_RGB) := by
  constructor
  · intro colors hne
    refine ⟨paddedColors_length colors,
      fun i hi => paddedColors_getElem_lt colors i hi,
      fun i h1 h2 => paddedColors_getElem_pad colors i hne h1 h2,
      fun c => nearest_padded_lt colors c hne, ?_⟩
    cases colors with
    | nil => exact absurd rfl hne
    | cons c0 rest =>
      unfold build_palette_table
      rw [if_neg]
      rw [flatten3_length, paddedColors_length]
      omega
  · decide

/-- Witness for C4 at a concrete input: the two-colour palette is padded with
its first colour (black), and the nearest index for any colour stays below 2. -/
theorem C4_witness :
    (paddedColors pal2)[100]? = pal2[0]? ∧
    nearestIndex (paddedColors pal2) (200, 200, 200) < min pal2.length 256 := by
  have h := C4_palette.1 pal2 (by decide)
  exact ⟨h.2.2.1 100 (by decide) (by decide), h.2.2.2.1 (200, 200, 200)⟩

set_option maxRecDepth 80000 in
/-- Counterexample to claim C7 as stated: with a 257-colour palette (one more
than the backend maximum) the extra colour is truncated away, so an image
consisting of that palette colour is NOT reproduced: the single green pixel
of an image whose colour is entry 256 of the supplied palette quantizes to
black. -/
theorem C7_counterexample :
    (0, 255, 0) ∈ colors257 ∧
    (quantizeNoDither green1x1 colors257).2.pix 0 0 ≠ green1x1.pix 0 0 := by
  constructor
  · decide
  · decide

/-- Claim C7, amended: with dithering disabled and a palette of at most the
backend maximum of 256 entries, quantizing an image already composed entirely
of palette colours reproduces it exactly: each pixel's chosen index holds the
pixel's own colour and the reconstructed RGB image equals the input
pixel-for-pixel. -/
theorem C7_no_dither_idempotent (img : Image) (colors : List RGB)
    (hne : colors ≠ []) (hle : colors.length ≤ 256)
    (hpix : ∀ x < img.width, ∀ y < img.height, img.pix x y ∈ colors) :
    ∀ x < img.width, ∀ y < img.height,
      (paddedColors colors)[(quantizeNoDither img colors).1.idx x y]? = some (img.pix x y) ∧
      (quantizeNoDither img colors).2.pix x y = img.pix x y := by
  intro x hx y hy
  have hc : img.pix x y ∈ colors := hpix x hx y hy
  have hmem : img.pix x y ∈ paddedColors colors := mem_paddedColors colors _ hle hc
  have h1 : (paddedColors colors)[nearestIndex (paddedColors colors) (img.pix x y)]?
      = some (img.pix x y) := nearest_of_mem _ _ hmem
  refine ⟨h1, ?_⟩
  show (paddedColors colors).getD (nearestIndex (paddedColors colors) (img.pix x y)) (0, 0, 0)
      = img.pix x y
  rw [List.getD_eq_getElem?_getD, h1]
  rfl

/-- Witness for C7 (amended) at a concrete input: a 1×1 white image over the
black/white palette is reproduced exactly. -/
theorem C7_witness :
    (paddedColors pal2)[(quantizeNoDither white1x1 pal2).1.idx 0 0]?
      = some (white1x1.pix 0 0) ∧
    (quantizeNoDither white1x1 pal2).2.pix 0 0 = white1x1.pix 0 0 :=
  C7_no_dither_idempotent white1x1 pal2 (by decide) (by decide)
    (by decide) 0 (by decide) 0 (by decide)

/- ### Lemmas on the packing loop -/

theorem mem_coords (w h x y : ℕ) : (x, y) ∈ coords w h ↔ x < w ∧ y < h := by
  unfold coords
  simp only [List.mem_flatMap, List.mem_reverse, List.mem_range, List.mem_map,
    Prod.mk.injEq]
  constructor
  · rintro ⟨a, ha, b, hb, rfl, rfl⟩
    exact ⟨hb, ha⟩
  · rintro ⟨hx, hy⟩
    exact ⟨y, hy, x, hx, rfl, rfl⟩

theorem packGo_ok_iff (f : ℕ → ℕ → Except String ℕ) (l : List (ℕ × ℕ)) :
    ∀ (pending : ℕ) (acc : List ℕ),
      (∃ bs, packGo f l pending acc = Except.ok bs) ↔
      (∀ c ∈ l, ∃ v, f c.1 c.2 = Except.ok v ∧ v < 8) := by
  induction l with
  | nil =>
    intro pending acc
    constructor
    · intro _ c hc
      exact absurd hc (List.not_mem_nil c)
    · intro _
      exact ⟨acc, rfl⟩
  | cons hd rest ih =>
    obtain ⟨x, y⟩ := hd
    intro pending acc
    constructor
    · rintro ⟨bs, hbs⟩ c hc
      simp only [packGo] at hbs
      cases hf : f x y with
      | error e =>
        rw [hf] at hbs
        exact Except.noConfusion hbs
      | ok v =>
        rw [hf] at hbs
        dsimp only at hbs
        by_cases hv : v < 8
        · rw [if_pos hv] at hbs
          rcases List.mem_cons.mp hc with hceq | hcm
          · rw [hceq]
            exact ⟨v, hf, hv⟩
          · by_cases hx2 : x % 2 = 0
            · rw [if_pos hx2] at hbs
              exact ((ih v acc).mp ⟨bs, hbs⟩) c hcm
            · rw [if_neg hx2] at hbs
              exact ((ih pending (acc ++ [(pending <<< 4) ||| v])).mp ⟨bs, hbs⟩) c hcm
        · rw [if_neg hv] at hbs
          exact Except.noConfusion hbs
    · intro hall
      obtain ⟨v, hf, hv⟩ := hall (x, y) (List.mem_cons_self _ _)
      have hrest : ∀ c ∈ rest, ∃ v, f c.1 c.2 = Except.ok v ∧ v < 8 :=
        fun c hc => hall c (List.mem_cons_of_mem _ hc)
      simp only [packGo]
      rw [hf]
      dsimp only
      rw [if_pos hv]
      by_cases hx2 : x % 2 = 0
      · rw [if_pos hx2]
        exact (ih v acc).mpr hrest
      · rw [if_neg hx2]
        exact (ih pending _).mpr hrest

theorem packCore_ok_iff (f : ℕ → ℕ → Except String ℕ) (w h : ℕ) :
    (∃ bs, packCore f w h = Except.ok bs) ↔
    (∀ x < w, ∀ y < h, ∃ v, f x y = Except.ok v ∧ v < 8) := by
  unfold packCore
  rw [packGo_ok_iff]
  constructor
  · intro hall x hx y hy
    exact hall (x, y) ((mem_coords w h x y).mpr ⟨hx, hy⟩)
  · rintro hall ⟨x, y⟩ hc
    obtain ⟨hx, hy⟩ := (mem_coords w h x y).mp hc
    exact hall x hx y hy

/- ### Claim theorems: packing error behaviour -/

/-- Claim C8, amended: `pack` fails (with the source's `assert raw_value < 8`,
or an `IndexError` on an out-of-range lookup) precisely when some cell of the
grid looks up a missing or too-large raw value; equivalently, it succeeds iff
every looked-up raw value exists and is < 8. The assertion bound is 8 — the
4-bit bound of 16 claimed by the spec is enforced a fortiori, but only for
values the grid actually looks up: a map value ≥ 16 at an index no cell uses
is never checked (see the counterexample), and values in 8..15 also fail. -/
theorem C8_pack_characterization :
    (∀ (g : Grid) (m : List ℕ),
      (∃ bs, pack g m = Except.ok bs) ↔
      (∀ x < g.width, ∀ y < g.height,
        g.idx x y < m.length ∧ m.getD (g.idx x y) 0 < 8)) ∧
    (∀ (g : Grid) (m : List ℕ) (x y : ℕ), x < g.width → y < g.height →
      g.idx x y < m.length → 16 ≤ m.getD (g.idx x y) 0 →
      ∀ bs, pack g m ≠ Except.ok bs) := by
  have hsome : ∀ (m : List ℕ) (i : ℕ), i < m.length → m.get? i = some (m.getD i 0) := by
    intro m i hi
    rw [List.getD_eq_getElem?_getD, ← List.get?_eq_getElem?]
    cases hm2 : m.get? i with
    | none =>
      have := List.get?_eq_none.mp hm2
      omega
    | some u => rfl
  have hmain : ∀ (g : Grid) (m : List ℕ),
      (∃ bs, pack g m = Except.ok bs) ↔
      (∀ x < g.width, ∀ y < g.height,
        g.idx x y < m.length ∧ m.getD (g.idx x y) 0 < 8) := by
    intro g m
    unfold pack
    rw [packCore_ok_iff]
    constructor
    · intro hall x hx y hy
      obtain ⟨v, hv, hlt⟩ := hall x hx y hy
      cases hm : m.get? (g.idx x y) with
      | none =>
        rw [hm] at hv
        exact Except.noConfusion hv
      | some u =>
        rw [hm] at hv
        dsimp only at hv
        have huv : u = v := Except.ok.inj hv
        have hlen : g.idx x y < m.length := by
          have h2 : m.get? (g.idx x y) ≠ none := by
            rw [hm]
            exact Option.some_ne_none u
          rcases Nat.lt_or_ge (g.idx x y) m.length with h | h
          · exact h
          · exact absurd (List.get?_eq_none.mpr h) h2
        refine ⟨hlen, ?_⟩
        have := hsome m (g.idx x y) hlen
        rw [hm] at this
        have := Option.some.inj this
        omega
    · intro hall x hx y hy
      obtain ⟨hlen, hlt⟩ := hall x hx y hy
      refine ⟨m.getD (g.idx x y) 0, ?_, hlt⟩
      rw [hsome m (g.idx x y) hlen]
  refine ⟨hmain, fun g m x y hx hy hlen h16 bs hok => ?_⟩
  have := (hmain g m).mp ⟨bs, hok⟩ x hx y hy
  omega

/-- Witness for C8 (amended) at concrete inputs: an all-zero 2×2 grid with map
`[0, 1]` packs successfully; with map `[16]` (the looked-up value 16 ≥ 8, and
a fortiori ≥ 16) it fails. -/
theorem C8_witness :
    (∃ bs, pack (gridZeros 2 2) [0, 1] = Except.ok bs) ∧
    (∀ bs, pack (gridZeros 2 2) [16] ≠ Except.ok bs) :=
  ⟨(C8_pack_characterization.1 (gridZeros 2 2) [0, 1]).mpr (by decide),
    fun bs => C8_pack_characterization.2 (gridZeros 2 2) [16] 0 0 (by decide) (by decide)
      (by decide) (by decide) bs⟩

/-- Claim C9: under the fixed configuration
`SPECTRA6_DEVICE_INDEX_TO_RAW = [0, 1, 2, 3, 5, 6]`, the packing loop's
assertion `raw_value < 8` never fails: for every image whose pixels are
SPECTRA6 real-world palette colours, every looked-up raw value is one of
`{0, 1, 2, 3, 5, 6}`, all below 8, so the loop completes without error. -/
theorem C9_assert_never_fires (img : Image)
    (hpix : ∀ x < img.width, ∀ y < img.height, img.pix x y ∈ SPECTRA6_REAL_WORD_RGB) :
    ∃ bs, packSpectra img = Except.ok bs := by
  unfold packSpectra
  rw [packCore_ok_iff]
  intro x hx y hy
  have hc := hpix x hx y hy
  simp only [SPECTRA6_REAL_WORD_RGB, List.mem_cons, List.not_mem_nil, or_false] at hc
  rcases hc with h | h | h | h | h | h
  · exact ⟨0, by rw [h]; rfl, by decide⟩
  · exact ⟨1, by rw [h]; rfl, by decide⟩
  · exact ⟨2, by rw [h]; rfl, by decide⟩
  · exact ⟨3, by rw [h]; rfl, by decide⟩
  · exact ⟨5, by rw [h]; rfl, by decide⟩
  · exact ⟨6, by rw [h]; rfl, by decide⟩

/-- Witness for C9 at a concrete input: a 2×2 chequerboard of the first two
SPECTRA6 colours packs without the assertion firing. -/
theorem C9_witness : ∃ bs, packSpectra imgSpectra2x2 = Except.ok bs :=
  C9_assert_never_fires imgSpectra2x2 (by decide)

/- ### Lemmas on palette-string parsing -/

theorem parseEntry_ok_iff (e : List Char) :
    (∃ b, parseEntry e = Except.ok b) ↔ goodEntryB e = true := by
  unfold parseEntry goodEntryB
  cases hsplit : (splitOnChar ',' e).map pyStrip with
  | nil => simp
  | cons p0 t0 =>
    cases t0 with
    | nil => simp
    | cons p1 t1 =>
      cases t1 with
      | nil => simp
      | cons p2 t2 =>
        cases t2 with
        | cons p3 t3 => simp
        | nil =>
          simp only [intInRange]
          cases h0 : pyInt? p0 with
          | none => simp
          | some r =>
            cases h1 : pyInt? p1 with
            | none => simp
            | some g =>
              cases h2 : pyInt? p2 with
              | none => simp
              | some b =>
                dsimp only
                by_cases hr : r < 0 ∨ 255 < r ∨ g < 0 ∨ 255 < g ∨ b < 0 ∨ 255 < b
                · rw [if_pos hr]
                  constructor
                  · rintro ⟨c, hc⟩
                    exact Except.noConfusion hc
                  · intro hgood
                    simp only [Bool.and_eq_true, decide_eq_true_eq] at hgood
                    omega
                · rw [if_neg hr]
                  constructor
                  · intro _
                    simp only [Bool.and_eq_true, decide_eq_true_eq]
                    omega
                  · intro _
                    exact ⟨(r.toNat, g.toNat, b.toNat), rfl⟩

theorem mapExcept_ok_iff (f : α → Except String β) (l : List α) :
    (∃ bs, mapExcept f l = Except.ok bs) ↔ ∀ a ∈ l, ∃ b, f a = Except.ok b := by
  induction l with
  | nil =>
    constructor
    · intro _ a ha
      exact absurd ha (List.not_mem_nil a)
    · intro _
      exact ⟨[], rfl⟩
  | cons a rest ih =>
    constructor
    · rintro ⟨bs, hbs⟩ c hc
      simp only [mapExcept] at hbs
      cases hf : f a with
      | error e =>
        rw [hf] at hbs
        exact Except.noConfusion hbs
      | ok b =>
        rw [hf] at hbs
        dsimp only at hbs
        cases hrest : mapExcept f rest with
        | error e =>
          rw [hrest] at hbs
          exact Except.noConfusion hbs
        | ok bs2 =>
          rcases List.mem_cons.mp hc with hceq | hcm
          · rw [hceq]
            exact ⟨b, hf⟩
          · exact (ih.mp ⟨bs2, hrest⟩) c hcm
    · intro hall
      obtain ⟨b, hb⟩ := hall a (List.mem_cons_self _ _)
      obtain ⟨bs, hbs⟩ := ih.mpr (fun c hc => hall c (List.mem_cons_of_mem _ hc))
      refine ⟨b :: bs, ?_⟩
      simp only [mapExcept]
      rw [hb]
      dsimp only
      rw [hbs]

theorem mapExcept_ok_length (f : α → Except String β) (l : List α) (bs : List β)
    (h : mapExcept f l = Except.ok bs) : bs.length = l.length := by
  induction l generalizing bs with
  | nil =>
    simp only [mapExcept] at h
    rw [← Except.ok.inj h]
    rfl
  | cons a rest ih =>
    simp only [mapExcept] at h
    cases hf : f a with
    | error e =>
      rw [hf] at h
      exact Except.noConfusion h
    | ok b =>
      rw [hf] at h
      dsimp only at h
      cases hrest : mapExcept f rest with
      | error e =>
        rw [hrest] at h
        exact Except.noConfusion h
      | ok bs2 =>
        rw [hrest] at h
        dsimp only at h
        rw [← Except.ok.inj h]
        simp [ih bs2 hrest]

/- ### Claim theorem: palette-string parsing -/

/-- Claim C10: `parse_palette` returns a non-empty list of RGB triplets if and
only if the string has at least one non-blank entry between semicolons and
every such entry consists of exactly 3 comma-separated integers in 0..255
(blank entries are skipped, not rejected); in every other case it raises
`ValueError`. A returned list is never empty. -/
theorem C10_parse_palette (s : List Char) :
    ((∃ l, parse_palette s = Except.ok l) ↔
      (entriesOf s ≠ [] ∧ ∀ e ∈ entriesOf s, goodEntryB e = true)) ∧
    (∀ l, parse_palette s = Except.ok l → l ≠ []) := by
  unfold parse_palette
  by_cases hs : s = []
  · rw [if_pos hs]
    refine ⟨⟨fun h => ?_, fun h => ?_⟩, fun l hl => absurd hl (by simp)⟩
    · obtain ⟨l, hl⟩ := h
      exact Except.noConfusion hl
    · obtain ⟨hne, _⟩ := h
      rw [hs] at hne
      exact absurd (by decide : entriesOf [] = []) hne
  · rw [if_neg hs]
    cases hm : mapExcept parseEntry (entriesOf s) with
    | error e =>
      refine ⟨⟨fun h => ?_, fun h => ?_⟩, fun l hl => absurd hl (by simp)⟩
      · obtain ⟨l, hl⟩ := h
        exact Except.noConfusion hl
      · obtain ⟨hne, hgood⟩ := h
        obtain ⟨bs, hbs⟩ := (mapExcept_ok_iff parseEntry (entriesOf s)).mpr
          (fun a ha => (parseEntry_ok_iff a).mpr (hgood a ha))
        rw [hm] at hbs
        exact Except.noConfusion hbs
    | ok colors =>
      have hlen := mapExcept_ok_length parseEntry (entriesOf s) colors hm
      dsimp only
      by_cases hz : colors.length = 0
      · rw [if_pos hz]
        refine ⟨⟨fun h => ?_, fun h => ?_⟩, fun l hl => absurd hl (by simp)⟩
        · obtain ⟨l, hl⟩ := h
          exact Except.noConfusion hl
        · obtain ⟨hne, _⟩ := h
          exact absurd (List.length_eq_zero.mp (by omega)) hne
      · rw [if_neg hz]
        refine ⟨⟨fun _ => ⟨?_, fun a ha => ?_⟩, fun _ => ⟨colors, rfl⟩⟩, fun l hl => ?_⟩
        · intro hE
          rw [hE] at hlen
          simp at hlen
          rw [hlen] at hz
          exact hz rfl
        · exact (parseEntry_ok_iff a).mp
            ((mapExcept_ok_iff parseEntry (entriesOf s)).mp ⟨colors, hm⟩ a ha)
        · rw [← Except.ok.inj hl]
          intro hnil
          rw [hnil] at hz
          exact hz rfl

/-- Witness for C10 at a concrete input: a palette string with a blank entry
between semicolons parses successfully. -/
theorem C10_witness : ∃ l, parse_palette ("0,0,0; ;255,255,255".data) = Except.ok l :=
  ((C10_parse_palette ("0,0,0; ;255,255,255".data)).1).mpr (by decide)

end Goframe
